import Mathlib

/-!
Verification development for the `bid_ask_service` repository.

The definitions below are a shallow embedding of the Rust source:

* `F` models `ordered_float::OrderedFloat<f64>` values: a rational payload or
  NaN, with the `OrderedFloat` total order (NaN greatest).
* `Bid` / `Ask` and their `cmp` functions are translated from
  `src/order_book/price_level/bid.rs` and `ask.rs`.
* The `BTreeSet` sides are modelled as lists kept in tree order; `setContains`,
  `setInsert` and `setRemove` reproduce the standard library search semantics
  documented in the source itself (`search_node`: Greater means keep scanning,
  Equal means found, Less means descend / stop).  For the container sizes used
  in the concrete evaluations (at most a handful of elements) a Rust `BTreeSet`
  is a single node and its search is exactly this left-to-right scan.
* `update_bids`, `update_asks`, `get_best_n_bids`, `get_best_n_asks` are
  translated from `src/order_book/btree_set/mod.rs`.  The worst-end
  `iter().next().unwrap()` is fallible, so the update functions return
  `Option` (with `none` for the panic).
* The Binance and Bitstamp stream-handler reconciliation steps are translated
  from `src/exchanges/binance/stream.rs` and `src/exchanges/bitstamp/stream.rs`.
* The aggregator consumer loop is translated from
  `src/order_book/mod.rs` (`handle_order_book_updates`).
-/

namespace BidAsk

/-- Model of an `OrderedFloat<f64>` value: either NaN or a (rational) number.
`OrderedFloat` orders NaN above every number and equal to itself. -/
inductive F where
  | nan : F
  | val : ℚ → F
deriving DecidableEq

/-- Total order of `OrderedFloat<f64>`: numbers by their numeric order, NaN
greatest. -/
def F.cmp : F → F → Ordering
  | F.nan, F.nan => Ordering.eq
  | F.nan, F.val _ => Ordering.gt
  | F.val _, F.nan => Ordering.lt
  | F.val a, F.val b => if a < b then Ordering.lt else if a = b then Ordering.eq else Ordering.gt

/-- Subtraction on the float model (used for the spread computation in the
aggregator); any operation touching NaN yields NaN. -/
def F.sub : F → F → F
  | F.val a, F.val b => F.val (a - b)
  | _, _ => F.nan

/-- Exact value of `f64::MAX`, `(2 - 2^-52) * 2^1023`. -/
def f64MAX : ℚ := 2 ^ 1024 - 2 ^ 971

/-- Venue enum from `src/exchanges/mod.rs` (declaration order `Bitstamp`,
`Binance` gives the derived `Ord`). -/
inductive Exchange where
  | bitstamp : Exchange
  | binance : Exchange
deriving DecidableEq

/-- Derived `Ord` on `Exchange`: declaration order, `Bitstamp < Binance`. -/
def Exchange.cmp : Exchange → Exchange → Ordering
  | Exchange.bitstamp, Exchange.bitstamp => Ordering.eq
  | Exchange.bitstamp, Exchange.binance => Ordering.lt
  | Exchange.binance, Exchange.bitstamp => Ordering.gt
  | Exchange.binance, Exchange.binance => Ordering.eq

/-- String rendering of `Exchange` (its `ToString` impl). -/
def Exchange.str : Exchange → String
  | Exchange.bitstamp => "bitstamp"
  | Exchange.binance => "binance"

/-- Bid price level, `src/order_book/price_level/bid.rs`. -/
structure Bid where
  price : F
  quantity : F
  exchange : Exchange
deriving DecidableEq

/-- Constructor `Bid::new`: wraps the raw values, performing no validation. -/
def Bid.new (price quantity : F) (exchange : Exchange) : Bid :=
  { price := price, quantity := quantity, exchange := exchange }

/-- Default bid, `Bid::new(0.0, 0.0, Exchange::Binance)`. -/
def Bid.dflt : Bid := Bid.new (F.val 0) (F.val 0) Exchange.binance

/-- Ask price level, `src/order_book/price_level/ask.rs`. -/
structure Ask where
  price : F
  quantity : F
  exchange : Exchange
deriving DecidableEq

/-- Constructor `Ask::new`: wraps the raw values, performing no validation. -/
def Ask.new (price quantity : F) (exchange : Exchange) : Ask :=
  { price := price, quantity := quantity, exchange := exchange }

/-- Default ask, `Ask::new(f64::MAX, 0.0, Exchange::Binance)`. -/
def Ask.dflt : Ask := Ask.new (F.val f64MAX) (F.val 0) Exchange.binance

/-- Total order on bids, translated from `impl Ord for Bid`
(`src/order_book/price_level/bid.rs` lines 60-92): price, then exchange for
equality, then quantity, with the strict-less fallback at equal quantity. -/
def Bid.cmp (self other : Bid) : Ordering :=
  match F.cmp self.price other.price with
  | Ordering.eq =>
    match Exchange.cmp self.exchange other.exchange with
    | Ordering.eq => Ordering.eq
    | _ =>
      match F.cmp self.quantity other.quantity with
      | Ordering.eq => Ordering.lt
      | o => o
  | o => o

/-- Total order on asks, translated from `impl Ord for Ask`
(`src/order_book/price_level/ask.rs` lines 62-98): like bids, but the
comparisons after the price step are reversed. -/
def Ask.cmp (self other : Ask) : Ordering :=
  match F.cmp self.price other.price with
  | Ordering.eq =>
    match (Exchange.cmp self.exchange other.exchange).swap with
    | Ordering.eq => Ordering.eq
    | _ =>
      match (F.cmp self.quantity other.quantity).swap with
      | Ordering.eq => Ordering.lt
      | o => o
  | o => o

/-- Batch of levels sent from a stream handler to the aggregator,
`src/order_book/price_level/mod.rs`. -/
structure PriceLevelUpdate where
  bids : List Bid
  asks : List Ask
deriving DecidableEq

/-- Constructor `PriceLevelUpdate::new`. -/
def PriceLevelUpdate.new (bids : List Bid) (asks : List Ask) : PriceLevelUpdate :=
  { bids := bids, asks := asks }

/-- Membership test of `std::collections::BTreeSet` on the ordered elements:
scan left to right, keep going on `Greater`, succeed on `Equal`, stop on
`Less`. -/
def setContains {α : Type} (cmp : α → α → Ordering) (key : α) : List α → Bool
  | [] => false
  | x :: xs =>
    match cmp key x with
    | Ordering.gt => setContains cmp key xs
    | Ordering.eq => true
    | Ordering.lt => false

/-- Insertion of `std::collections::BTreeSet`: the element goes to the position
the search lands on; if an `Equal` element is already present the set is left
unchanged (Rust's `insert` does not replace). -/
def setInsert {α : Type} (cmp : α → α → Ordering) (key : α) : List α → List α
  | [] => [key]
  | x :: xs =>
    match cmp key x with
    | Ordering.gt => x :: setInsert cmp key xs
    | Ordering.eq => x :: xs
    | Ordering.lt => key :: x :: xs

/-- Removal of `std::collections::BTreeSet`: remove the element the search
finds `Equal`, if any. -/
def setRemove {α : Type} (cmp : α → α → Ordering) (key : α) : List α → List α
  | [] => []
  | x :: xs =>
    match cmp key x with
    | Ordering.gt => x :: setRemove cmp key xs
    | Ordering.eq => xs
    | Ordering.lt => x :: xs

/-- Translation of `BTreeSetOrderBook::update_bids`
(`src/order_book/btree_set/mod.rs` lines 29-55).  The worst bid is the minimum
(`iter().next()`); its `unwrap` panics when the set is empty, modelled by
`none`. -/
def update_bids (bids : List Bid) (bid : Bid) (maxDepth : Nat) : Option (List Bid) :=
  if bid.quantity = F.val 0 then
    some (setRemove Bid.cmp bid bids)
  else if bids.length < maxDepth then
    if setContains Bid.cmp bid bids then
      some (setInsert Bid.cmp bid (setRemove Bid.cmp bid bids))
    else
      some (setInsert Bid.cmp bid bids)
  else
    match bids.head? with
    | none => none
    | some worst =>
      if Bid.cmp bid worst = Ordering.gt then
        some (setInsert Bid.cmp bid bids.tail)
      else
        some bids

/-- Translation of `BTreeSetOrderBook::update_asks`
(`src/order_book/btree_set/mod.rs` lines 57-83).  The worst ask is the maximum
(`iter().next_back()`); its `unwrap` panics when the set is empty, modelled by
`none`. -/
def update_asks (asks : List Ask) (ask : Ask) (maxDepth : Nat) : Option (List Ask) :=
  if ask.quantity = F.val 0 then
    some (setRemove Ask.cmp ask asks)
  else if asks.length < maxDepth then
    if setContains Ask.cmp ask asks then
      some (setInsert Ask.cmp ask (setRemove Ask.cmp ask asks))
    else
      some (setInsert Ask.cmp ask asks)
  else
    match asks.getLast? with
    | none => none
    | some worst =>
      if Ask.cmp ask worst = Ordering.lt then
        some (setInsert Ask.cmp ask asks.dropLast)
      else
        some asks

/-- Sequential application of a batch of bid updates (the per-message loops of
the handlers and the aggregator). -/
def apply_bid_updates (bids : List Bid) (updates : List Bid) (maxDepth : Nat) :
    Option (List Bid) :=
  updates.foldlM (fun b u => update_bids b u maxDepth) bids

/-- Sequential application of a batch of ask updates. -/
def apply_ask_updates (asks : List Ask) (updates : List Ask) (maxDepth : Nat) :
    Option (List Ask) :=
  updates.foldlM (fun a u => update_asks a u maxDepth) asks

/-- One iteration of the `while best.len() < n` padding loop of
`get_best_n_bids` / `get_best_n_asks`: append `None` the given number of
times (the loop runs `n - len` iterations). -/
def padGo {α : Type} : Nat → List (Option α) → List (Option α)
  | 0, l => l
  | k + 1, l => padGo k (l ++ [none])

/-- Translation of `BTreeSetOrderBook::get_best_n_bids`
(`src/order_book/btree_set/mod.rs` lines 107-119): walk from the maximum end
(`iter().rev()`), take up to `n`, then pad with `None` while shorter than
`n`. -/
def get_best_n_bids (bids : List Bid) (n : Nat) : List (Option Bid) :=
  let best := (bids.reverse.take n).map some
  padGo (n - best.length) best

/-- Translation of `BTreeSetOrderBook::get_best_n_asks`
(`src/order_book/btree_set/mod.rs` lines 93-105): walk from the minimum end,
take up to `n`, then pad with `None` while shorter than `n`. -/
def get_best_n_asks (asks : List Ask) (n : Nat) : List (Option Ask) :=
  let best := (asks.take n).map some
  padGo (n - best.length) best

/-- Deserialized Binance depth update (`OrderBookUpdate` in
`src/exchanges/binance/stream.rs`; wire keys `E`, `U`, `u`, `b`, `a`). -/
structure OrderBookUpdate where
  eventTime : Nat
  firstUpdateId : Nat
  finalUpdatedId : Nat
  bids : List (F × F)
  asks : List (F × F)
deriving DecidableEq

/-- Binance REST depth snapshot (`OrderBookSnapshot` in
`src/exchanges/binance/stream.rs`; wire key `lastUpdateId`). -/
structure BinanceOrderBookSnapshot where
  lastUpdateId : Nat
  bids : List (F × F)
  asks : List (F × F)
deriving DecidableEq

/-- Outcome of the Binance handler on one depth-update frame. -/
inductive BinanceAction where
  | drop : BinanceAction
  | forward : PriceLevelUpdate → Nat → BinanceAction
  | invalidUpdateId : BinanceAction
deriving DecidableEq

/-- Translation of the depth-update branch of the Binance
`spawn_stream_handler` loop (`src/exchanges/binance/stream.rs` lines 113-145):
drop stale frames, forward in-window frames (advancing the watermark to the
frame's final id), and fail with `InvalidUpdateId` otherwise. -/
def binance_handle_depth_update (lastUpdateId : Nat) (u : OrderBookUpdate) : BinanceAction :=
  if u.finalUpdatedId ≤ lastUpdateId then
    BinanceAction.drop
  else if u.firstUpdateId ≤ lastUpdateId + 1 ∧ lastUpdateId < u.finalUpdatedId then
    BinanceAction.forward
      (PriceLevelUpdate.new
        (u.bids.map fun l => Bid.new l.1 l.2 Exchange.binance)
        (u.asks.map fun l => Ask.new l.1 l.2 Exchange.binance))
      u.finalUpdatedId
  else
    BinanceAction.invalidUpdateId

/-- Translation of the snapshot branch of the Binance handler
(`src/exchanges/binance/stream.rs` lines 148-172): the snapshot is forwarded
as one `PriceLevelUpdate` and the watermark becomes `lastUpdateId`. -/
def binance_handle_snapshot (s : BinanceOrderBookSnapshot) : PriceLevelUpdate × Nat :=
  (PriceLevelUpdate.new
      (s.bids.map fun l => Bid.new l.1 l.2 Exchange.binance)
      (s.asks.map fun l => Ask.new l.1 l.2 Exchange.binance),
    s.lastUpdateId)

/-- Wire content of one Bitstamp `diff_order_book` data payload: the JSON
object carries both a seconds-resolution `timestamp` key and a
microsecond-resolution `microtimestamp` key. -/
structure BitstampWireData where
  timestamp : Nat
  microtimestamp : Nat
  bids : List (F × F)
  asks : List (F × F)
deriving DecidableEq

/-- Deserialized Bitstamp delta payload (`OrderBookUpdateData` in
`src/exchanges/bitstamp/stream.rs` lines 245-262).  Its `microtimestamp`
field carries `#[serde(rename = "timestamp")]`, so it is populated from the
wire `timestamp` key. -/
structure OrderBookUpdateData where
  microtimestamp : Nat
  bids : List (F × F)
  asks : List (F × F)
deriving DecidableEq

/-- Deserialization of `OrderBookUpdateData` from the wire payload, following
the serde attributes: the struct field named `microtimestamp` reads the wire
key `timestamp`. -/
def deserialize_order_book_update_data (w : BitstampWireData) : OrderBookUpdateData :=
  { microtimestamp := w.timestamp, bids := w.bids, asks := w.asks }

/-- Bitstamp REST snapshot (`OrderBookSnapshot` in
`src/exchanges/bitstamp/stream.rs` lines 210-232; here the `microtimestamp`
field reads the wire `microtimestamp` key). -/
structure BitstampOrderBookSnapshot where
  timestamp : Nat
  microtimestamp : Nat
  bids : List (F × F)
  asks : List (F × F)
deriving DecidableEq

/-- Outcome of the Bitstamp handler on one data frame. -/
inductive BitstampAction where
  | drop : BitstampAction
  | forward : PriceLevelUpdate → Nat → BitstampAction
deriving DecidableEq

/-- Translation of the data-event branch of the Bitstamp
`spawn_stream_handler` loop (`src/exchanges/bitstamp/stream.rs` lines
112-145): skip the frame when its (deserialized) `microtimestamp` is not
newer than the watermark, otherwise forward and advance the watermark. -/
def bitstamp_handle_data (lastMicrotimestamp : Nat) (d : OrderBookUpdateData) : BitstampAction :=
  if d.microtimestamp ≤ lastMicrotimestamp then
    BitstampAction.drop
  else
    BitstampAction.forward
      (PriceLevelUpdate.new
        (d.bids.map fun l => Bid.new l.1 l.2 Exchange.bitstamp)
        (d.asks.map fun l => Ask.new l.1 l.2 Exchange.bitstamp))
      d.microtimestamp

/-- Translation of the snapshot branch of the Bitstamp handler
(`src/exchanges/bitstamp/stream.rs` lines 148-172): the snapshot is forwarded
and the watermark becomes the snapshot's `microtimestamp`. -/
def bitstamp_handle_snapshot (s : BitstampOrderBookSnapshot) : PriceLevelUpdate × Nat :=
  (PriceLevelUpdate.new
      (s.bids.map fun l => Bid.new l.1 l.2 Exchange.bitstamp)
      (s.asks.map fun l => Ask.new l.1 l.2 Exchange.bitstamp),
    s.microtimestamp)

/-- Published level (`Level` of the RPC summary; the exchange is rendered as a
string). -/
structure Level where
  price : F
  amount : F
  exchange : String
deriving DecidableEq

/-- Published summary (`Summary`): spread plus the cached best-N sides. -/
structure Summary where
  spread : F
  bids : List Level
  asks : List Level
deriving DecidableEq

/-- Mutable state of the aggregator consumer loop
(`handle_order_book_updates`, `src/order_book/mod.rs` lines 119-129). -/
structure AggState where
  bestBidPrice : F
  bestAskPrice : F
  bestNBids : List Level
  bestNAsks : List Level
  lastBid : Bid
  lastAsk : Ask
  bidBook : List Bid
  askBook : List Ask
deriving DecidableEq

/-- Initial consumer state: prices `0.0` and `f64::MAX`, empty caches, default
levels, empty side containers. -/
def initialAggState : AggState :=
  { bestBidPrice := F.val 0
    bestAskPrice := F.val f64MAX
    bestNBids := []
    bestNAsks := []
    lastBid := Bid.dflt
    lastAsk := Ask.dflt
    bidBook := []
    askBook := [] }

/-- Conversion of a cached bid into a published `Level`. -/
def bid_to_level (b : Bid) : Level :=
  { price := b.price, amount := b.quantity, exchange := b.exchange.str }

/-- Conversion of a cached ask into a published `Level`. -/
def ask_to_level (a : Ask) : Level :=
  { price := a.price, amount := a.quantity, exchange := a.exchange.str }

/-- Translation of `bids_fut` inside the consumer loop
(`src/order_book/mod.rs` lines 132-177): apply the batch (flagging a refresh
when some bid compares `is_ge` against the cached worst top-N bid), then, when
flagged, rebuild the cached levels from `get_best_n_bids`.  `none` models the
panics (`best_bids[0]` with `best_n_orders = 0`, or the update unwrap). -/
def bids_fut (maxDepth bestN : Nat) (lastBid : Bid) (book : List Bid) (bids : List Bid) :
    Option (List Bid × Option (List Level × F × Bid)) :=
  let updateBestBids := bids.any fun b => !(Bid.cmp b lastBid == Ordering.lt)
  match apply_bid_updates book bids maxDepth with
  | none => none
  | some book2 =>
    if updateBestBids then
      match get_best_n_bids book2 bestN with
      | [] => none
      | none :: _ => some (book2, none)
      | some b0 :: rest =>
        let tailSomes := (rest.takeWhile fun o => o.isSome).filterMap id
        some (book2,
          some ((b0 :: tailSomes).map bid_to_level, b0.price, tailSomes.getLastD b0))
    else
      some (book2, none)

/-- Translation of `asks_fut` inside the consumer loop
(`src/order_book/mod.rs` lines 179-225), symmetric to `bids_fut` with the
`is_le` comparison and `get_best_n_asks`. -/
def asks_fut (maxDepth bestN : Nat) (lastAsk : Ask) (book : List Ask) (asks : List Ask) :
    Option (List Ask × Option (List Level × F × Ask)) :=
  let updateBestAsks := asks.any fun a => !(Ask.cmp a lastAsk == Ordering.gt)
  match apply_ask_updates book asks maxDepth with
  | none => none
  | some book2 =>
    if updateBestAsks then
      match get_best_n_asks book2 bestN with
      | [] => none
      | none :: _ => some (book2, none)
      | some a0 :: rest =>
        let tailSomes := (rest.takeWhile fun o => o.isSome).filterMap id
        some (book2,
          some ((a0 :: tailSomes).map ask_to_level, a0.price, tailSomes.getLastD a0))
    else
      some (book2, none)

/-- One iteration of the consumer loop body (`src/order_book/mod.rs` lines
131-253) up to the summary send: apply the batch to both sides, refresh the
cached best-N data, and produce the summary that is about to be published. -/
def consumer_step (maxDepth bestN : Nat) (s : AggState) (u : PriceLevelUpdate) :
    Option (AggState × Summary) :=
  match bids_fut maxDepth bestN s.lastBid s.bidBook u.bids with
  | none => none
  | some (bidBook2, updB) =>
    match asks_fut maxDepth bestN s.lastAsk s.askBook u.asks with
    | none => none
    | some (askBook2, updA) =>
      let s1 :=
        match updB with
        | some (levels, price, lastB) =>
          { s with bestNBids := levels, bestBidPrice := price, lastBid := lastB }
        | none => s
      let s2 :=
        match updA with
        | some (levels, price, lastA) =>
          { s1 with bestNAsks := levels, bestAskPrice := price, lastAsk := lastA }
        | none => s1
      let s3 := { s2 with bidBook := bidBook2, askBook := askBook2 }
      some (s3, { spread := F.sub s3.bestAskPrice s3.bestBidPrice,
                  bids := s3.bestNBids, asks := s3.bestNAsks })

/-- Error surfaced by the consumer task when the broadcast send of a summary
fails (`OrderBookError::SummarySendError`). -/
inductive OrderBookErr where
  | summarySendError : OrderBookErr
deriving DecidableEq

/-- Consumer loop of `handle_order_book_updates`: each received update is
processed and its summary sent to the broadcast sink; the `Bool` of each list
entry tells whether that send succeeds (it fails when every subscriber has
dropped).  A failed send is propagated with `?` — the task returns the error.
A `none` result models a panic inside the loop body. -/
def consumer_loop (maxDepth bestN : Nat) (s : AggState) :
    List (PriceLevelUpdate × Bool) → Option (Except OrderBookErr AggState)
  | [] => some (Except.ok s)
  | (u, sinkOk) :: rest =>
    match consumer_step maxDepth bestN s u with
    | none => none
    | some (s2, _) =>
      if sinkOk then consumer_loop maxDepth bestN s2 rest
      else some (Except.error OrderBookErr.summarySendError)

/-- Observation helper: 0 for a panic, 1 for a task ending in an error, 2 for
a task that is still running (loop completed its input normally). -/
def loop_result_tag : Option (Except OrderBookErr AggState) → Nat
  | none => 0
  | some (Except.error _) => 1
  | some (Except.ok _) => 2

/-- Observation helper: the number of levels in the bid container at the end
of a normally-running consumer loop. -/
def loop_ok_bid_count : Option (Except OrderBookErr AggState) → Option Nat
  | some (Except.ok s) => some s.bidBook.length
  | _ => none

/-! Helper lemmas about the comparison functions and the ordered-set model. -/

theorem fcmp_self (a : F) : F.cmp a a = Ordering.eq := by
  cases a with
  | nan => rfl
  | val x => simp [F.cmp]

theorem fcmp_eq_iff (a b : F) : F.cmp a b = Ordering.eq ↔ a = b := by
  cases a with
  | nan =>
    cases b with
    | nan => simp [F.cmp]
    | val y => simp [F.cmp]
  | val x =>
    cases b with
    | nan => simp [F.cmp]
    | val y =>
      simp only [F.cmp]
      split_ifs with h1 h2
      · constructor
        · intro h; cases h
        · intro h; exact absurd (F.val.inj h) (ne_of_lt h1)
      · subst h2; simp
      · constructor
        · intro h; cases h
        · intro h; exact absurd (F.val.inj h) h2

theorem exchange_cmp_self (a : Exchange) : Exchange.cmp a a = Ordering.eq := by
  cases a <;> rfl

theorem exchange_cmp_eq_iff (a b : Exchange) : Exchange.cmp a b = Ordering.eq ↔ a = b := by
  cases a <;> cases b <;> decide

theorem ordering_swap_eq_eq (o : Ordering) : o.swap = Ordering.eq ↔ o = Ordering.eq := by
  cases o <;> decide

theorem bid_cmp_eq_iff (a b : Bid) :
    Bid.cmp a b = Ordering.eq ↔ (a.price = b.price ∧ a.exchange = b.exchange) := by
  unfold Bid.cmp
  cases hp : F.cmp a.price b.price with
  | lt =>
    have hne : a.price ≠ b.price := by
      intro h; rw [h, fcmp_self] at hp; cases hp
    simp [hne]
  | gt =>
    have hne : a.price ≠ b.price := by
      intro h; rw [h, fcmp_self] at hp; cases hp
    simp [hne]
  | eq =>
    have hpe : a.price = b.price := (fcmp_eq_iff _ _).mp hp
    cases he : Exchange.cmp a.exchange b.exchange with
    | eq =>
      have hee : a.exchange = b.exchange := (exchange_cmp_eq_iff _ _).mp he
      simp [hpe, hee]
    | lt =>
      have hne : a.exchange ≠ b.exchange := by
        intro h; rw [h, exchange_cmp_self] at he; cases he
      cases hq : F.cmp a.quantity b.quantity <;> simp [hne]
    | gt =>
      have hne : a.exchange ≠ b.exchange := by
        intro h; rw [h, exchange_cmp_self] at he; cases he
      cases hq : F.cmp a.quantity b.quantity <;> simp [hne]

theorem bid_cmp_of_price_ne (a b : Bid) (h : a.price ≠ b.price) :
    Bid.cmp a b = F.cmp a.price b.price := by
  unfold Bid.cmp
  cases hp : F.cmp a.price b.price with
  | lt => rfl
  | gt => rfl
  | eq => exact absurd ((fcmp_eq_iff _ _).mp hp) h

theorem ask_cmp_eq_iff (a b : Ask) :
    Ask.cmp a b = Ordering.eq ↔ (a.price = b.price ∧ a.exchange = b.exchange) := by
  unfold Ask.cmp
  cases hp : F.cmp a.price b.price with
  | lt =>
    have hne : a.price ≠ b.price := by
      intro h; rw [h, fcmp_self] at hp; cases hp
    simp [hne]
  | gt =>
    have hne : a.price ≠ b.price := by
      intro h; rw [h, fcmp_self] at hp; cases hp
    simp [hne]
  | eq =>
    have hpe : a.price = b.price := (fcmp_eq_iff _ _).mp hp
    cases he : (Exchange.cmp a.exchange b.exchange).swap with
    | eq =>
      have hee : a.exchange = b.exchange :=
        (exchange_cmp_eq_iff _ _).mp ((ordering_swap_eq_eq _).mp he)
      simp [hpe, hee]
    | lt =>
      have hne : a.exchange ≠ b.exchange := by
        intro h; rw [h, exchange_cmp_self] at he; cases he
      cases hq : (F.cmp a.quantity b.quantity).swap <;> simp [hne]
    | gt =>
      have hne : a.exchange ≠ b.exchange := by
        intro h; rw [h, exchange_cmp_self] at he; cases he
      cases hq : (F.cmp a.quantity b.quantity).swap <;> simp [hne]

theorem ask_cmp_of_price_ne (a b : Ask) (h : a.price ≠ b.price) :
    Ask.cmp a b = F.cmp a.price b.price := by
  unfold Ask.cmp
  cases hp : F.cmp a.price b.price with
  | lt => rfl
  | gt => rfl
  | eq => exact absurd ((fcmp_eq_iff _ _).mp hp) h

theorem setContains_eq_false {α : Type} (cmp : α → α → Ordering) (key : α) :
    ∀ S : List α, (∀ e ∈ S, cmp key e ≠ Ordering.eq) → setContains cmp key S = false := by
  intro S
  induction S with
  | nil => intro _; rfl
  | cons x xs ih =>
    intro h
    simp only [setContains]
    cases hc : cmp key x with
    | gt => exact ih fun e he => h e (List.mem_cons_of_mem _ he)
    | eq => exact absurd hc (h x (List.mem_cons_self _ _))
    | lt => rfl

theorem setRemove_eq_self {α : Type} (cmp : α → α → Ordering) (key : α) :
    ∀ S : List α, (∀ e ∈ S, cmp key e ≠ Ordering.eq) → setRemove cmp key S = S := by
  intro S
  induction S with
  | nil => intro _; rfl
  | cons x xs ih =>
    intro h
    simp only [setRemove]
    cases hc : cmp key x with
    | gt => rw [ih fun e he => h e (List.mem_cons_of_mem _ he)]
    | eq => exact absurd hc (h x (List.mem_cons_self _ _))
    | lt => rfl

theorem setInsert_length {α : Type} (cmp : α → α → Ordering) (key : α) :
    ∀ S : List α, (∀ e ∈ S, cmp key e ≠ Ordering.eq) →
      (setInsert cmp key S).length = S.length + 1 := by
  intro S
  induction S with
  | nil => intro _; rfl
  | cons x xs ih =>
    intro h
    simp only [setInsert]
    cases hc : cmp key x with
    | gt =>
      simp only [List.length_cons, ih fun e he => h e (List.mem_cons_of_mem _ he)]
    | eq => exact absurd hc (h x (List.mem_cons_self _ _))
    | lt => rfl

theorem setContains_insert {α : Type} (cmp : α → α → Ordering) (key key2 : α)
    (hkk : cmp key2 key = Ordering.eq) :
    ∀ S : List α,
      (∀ e ∈ S, cmp key e ≠ Ordering.eq ∧ cmp key2 e = cmp key e) →
      setContains cmp key2 (setInsert cmp key S) = true := by
  intro S
  induction S with
  | nil => intro _; simp [setInsert, setContains, hkk]
  | cons x xs ih =>
    intro h
    obtain ⟨h1, h2⟩ := h x (List.mem_cons_self _ _)
    simp only [setInsert]
    cases hc : cmp key x with
    | gt =>
      simp only [setContains, h2, hc]
      exact ih fun e he => h e (List.mem_cons_of_mem _ he)
    | eq => exact absurd hc h1
    | lt => simp [setContains, hkk]

theorem setRemove_insert {α : Type} (cmp : α → α → Ordering) (key key2 : α)
    (hkk : cmp key2 key = Ordering.eq) :
    ∀ S : List α,
      (∀ e ∈ S, cmp key e ≠ Ordering.eq ∧ cmp key2 e = cmp key e) →
      setRemove cmp key2 (setInsert cmp key S) = S := by
  intro S
  induction S with
  | nil => intro _; simp [setInsert, setRemove, hkk]
  | cons x xs ih =>
    intro h
    obtain ⟨h1, h2⟩ := h x (List.mem_cons_self _ _)
    simp only [setInsert]
    cases hc : cmp key x with
    | gt =>
      simp only [setRemove, h2, hc]
      rw [ih fun e he => h e (List.mem_cons_of_mem _ he)]
    | eq => exact absurd hc h1
    | lt => simp [setRemove, hkk]

theorem filter_eq_nil_of_false {α : Type} (p : α → Bool) :
    ∀ S : List α, (∀ e ∈ S, p e = false) → S.filter p = [] := by
  intro S
  induction S with
  | nil => intro _; rfl
  | cons x xs ih =>
    intro h
    rw [List.filter_cons, h x (List.mem_cons_self _ _)]
    simp only [Bool.false_eq_true, if_false]
    exact ih fun e he => h e (List.mem_cons_of_mem _ he)

theorem setInsert_filter_key {α : Type} (cmp : α → α → Ordering) (key : α)
    (p : α → Bool) (hp : p key = true) :
    ∀ S : List α,
      (∀ e ∈ S, cmp key e ≠ Ordering.eq) → (∀ e ∈ S, p e = false) →
      (setInsert cmp key S).filter p = [key] := by
  intro S
  induction S with
  | nil => intro _ _; simp [setInsert, hp]
  | cons x xs ih =>
    intro hc hf
    simp only [setInsert]
    cases hcx : cmp key x with
    | gt =>
      rw [List.filter_cons, hf x (List.mem_cons_self _ _)]
      simp only [Bool.false_eq_true, if_false]
      exact ih (fun e he => hc e (List.mem_cons_of_mem _ he))
        (fun e he => hf e (List.mem_cons_of_mem _ he))
    | eq => exact absurd hcx (hc x (List.mem_cons_self _ _))
    | lt =>
      rw [List.filter_cons, hp]
      simp only [if_true]
      rw [filter_eq_nil_of_false p (x :: xs) hf]

theorem setInsert_filter_not_key {α : Type} (cmp : α → α → Ordering) (key : α)
    (p : α → Bool) (hp : p key = false) :
    ∀ S : List α,
      (∀ e ∈ S, cmp key e ≠ Ordering.eq) →
      (setInsert cmp key S).filter p = S.filter p := by
  intro S
  induction S with
  | nil => intro _; simp [setInsert, hp]
  | cons x xs ih =>
    intro hc
    simp only [setInsert]
    cases hcx : cmp key x with
    | gt =>
      rw [List.filter_cons, List.filter_cons]
      cases hpx : p x with
      | true =>
        simp only [if_true]
        rw [ih fun e he => hc e (List.mem_cons_of_mem _ he)]
      | false =>
        simp only [Bool.false_eq_true, if_false]
        exact ih fun e he => hc e (List.mem_cons_of_mem _ he)
    | eq => exact absurd hcx (hc x (List.mem_cons_self _ _))
    | lt =>
      show List.filter p (key :: x :: xs) = List.filter p (x :: xs)
      rw [List.filter_cons, hp]
      simp only [Bool.false_eq_true, if_false]

theorem padGo_eq {α : Type} :
    ∀ (k : Nat) (l : List (Option α)), padGo k l = l ++ List.replicate k none := by
  intro k
  induction k with
  | zero => intro l; simp [padGo]
  | succ m ih =>
    intro l
    simp only [padGo]
    rw [ih]
    simp [List.replicate_succ]

/-! Claim theorems. -/

/-- Claim C1: with watermark `last_seen_id` (set to the snapshot's
`lastUpdateId` after a snapshot is processed), the Binance-style handler drops
every delta with `final_id ≤ last_seen_id`, forwards every delta with
`first_id ≤ last_seen_id + 1 ≤ final_id` to the aggregator as one
`PriceLevelUpdate` and advances the watermark to `final_id`, and returns the
`InvalidUpdateId` error (forwarding nothing) on every delta with
`final_id > last_seen_id` but `first_id > last_seen_id + 1`. -/
theorem binance_reconciliation (last : Nat) (u : OrderBookUpdate) :
    (u.finalUpdatedId ≤ last → binance_handle_depth_update last u = BinanceAction.drop) ∧
    (u.firstUpdateId ≤ last + 1 → last + 1 ≤ u.finalUpdatedId →
      binance_handle_depth_update last u =
        BinanceAction.forward
          (PriceLevelUpdate.new
            (u.bids.map fun l => Bid.new l.1 l.2 Exchange.binance)
            (u.asks.map fun l => Ask.new l.1 l.2 Exchange.binance))
          u.finalUpdatedId) ∧
    (last < u.finalUpdatedId → last + 1 < u.firstUpdateId →
      binance_handle_depth_update last u = BinanceAction.invalidUpdateId) ∧
    (∀ s : BinanceOrderBookSnapshot, (binance_handle_snapshot s).2 = s.lastUpdateId) := by
  refine ⟨?_, ?_, ?_, fun s => rfl⟩
  · intro h
    unfold binance_handle_depth_update
    rw [if_pos h]
  · intro h1 h2
    unfold binance_handle_depth_update
    rw [if_neg (by omega), if_pos ⟨h1, by omega⟩]
  · intro h1 h2
    unfold binance_handle_depth_update
    rw [if_neg (by omega), if_neg (by omega)]

/-- Witness for C1: after a snapshot with `lastUpdateId = 50`, the delta with
`first_id = 49`, `final_id = 51` is forwarded and the watermark becomes 51
(spec scenario S6). -/
theorem binance_reconciliation_witness :
    binance_handle_depth_update 50 (OrderBookUpdate.mk 0 49 51 [] []) =
      BinanceAction.forward (PriceLevelUpdate.new [] []) 51 :=
  (binance_reconciliation 50 (OrderBookUpdate.mk 0 49 51 [] [])).2.1 (by decide) (by decide)

/-- Claim C2 evaluated on the code: the Bitstamp handler's acceptance test
reads the value deserialized into `OrderBookUpdateData.microtimestamp`, which
by its serde attribute is the wire `timestamp` key (seconds), not the wire
`microtimestamp` key.  A delta whose wire `microtimestamp` strictly exceeds
the watermark (taken from the snapshot's true microsecond timestamp) is
therefore dropped, not forwarded. -/
theorem bitstamp_wire_timestamp_acceptance :
    bitstamp_handle_data 1700000000000000
      (deserialize_order_book_update_data
        (BitstampWireData.mk 1700000000 1700000000000001
          [(F.val 1, F.val 1)] [])) = BitstampAction.drop ∧
    1700000000000000 < (BitstampWireData.mk 1700000000 1700000000000001
      [(F.val 1, F.val 1)] ([] : List (F × F))).microtimestamp ∧
    (bitstamp_handle_snapshot
      (BitstampOrderBookSnapshot.mk 1699999999 1700000000000000 [] [])).2 =
      1700000000000000 := by
  refine ⟨by decide, by decide, rfl⟩

/-- Claim C3 evaluated on the code: starting from an empty bid container with
`max_depth = 10`, the update sequence (100, 5, Binance), (100, 2, Bitstamp),
(100, 2, Binance) leaves the container holding both (100, 5, Binance) and
(100, 2, Binance) — two entries with the same `(price, venue)` key.  The
search for the third update stops at the Bitstamp entry (equal price, equal
quantity, different venue compares strictly less), so the existing Binance
entry is never found and a duplicate is inserted. -/
theorem side_container_key_uniqueness_violation :
    apply_bid_updates []
      [Bid.new (F.val 100) (F.val 5) Exchange.binance,
       Bid.new (F.val 100) (F.val 2) Exchange.bitstamp,
       Bid.new (F.val 100) (F.val 2) Exchange.binance] 10 =
      some [Bid.new (F.val 100) (F.val 2) Exchange.binance,
        Bid.new (F.val 100) (F.val 2) Exchange.bitstamp,
        Bid.new (F.val 100) (F.val 5) Exchange.binance] ∧
    ((([Bid.new (F.val 100) (F.val 2) Exchange.binance,
        Bid.new (F.val 100) (F.val 2) Exchange.bitstamp,
        Bid.new (F.val 100) (F.val 5) Exchange.binance]).filter
      fun e => decide (e.price = F.val 100 ∧ e.exchange = Exchange.binance)).length = 2) := by
  constructor
  · decide
  · decide

/-- Claim C4: at equal price and different venues, the bid order compares by
quantity (lower quantity less), resolving to strictly less in both argument
orders when the quantities are also equal; the ask order reverses the
post-price comparisons, so the higher-quantity ask compares less, again with
strict less (both argument orders) at equal quantity. -/
theorem price_level_order_tiebreak (p q1 q2 : F) (v1 v2 : Exchange) (hv : v1 ≠ v2) :
    (q1 ≠ q2 → Bid.cmp (Bid.new p q1 v1) (Bid.new p q2 v2) = F.cmp q1 q2) ∧
    (q1 = q2 → Bid.cmp (Bid.new p q1 v1) (Bid.new p q2 v2) = Ordering.lt ∧
      Bid.cmp (Bid.new p q2 v2) (Bid.new p q1 v1) = Ordering.lt) ∧
    (q1 ≠ q2 → Ask.cmp (Ask.new p q1 v1) (Ask.new p q2 v2) = (F.cmp q1 q2).swap) ∧
    (q1 = q2 → Ask.cmp (Ask.new p q1 v1) (Ask.new p q2 v2) = Ordering.lt ∧
      Ask.cmp (Ask.new p q2 v2) (Ask.new p q1 v1) = Ordering.lt) := by
  have hv21 : v2 ≠ v1 := fun h => hv h.symm
  have hbid : ∀ (qa qb : F) (va vb : Exchange), va ≠ vb →
      Bid.cmp (Bid.new p qa va) (Bid.new p qb vb) =
        (match F.cmp qa qb with
         | Ordering.eq => Ordering.lt
         | o => o) := by
    intro qa qb va vb hvab
    unfold Bid.cmp Bid.new
    rw [fcmp_self]
    cases he : Exchange.cmp va vb with
    | eq => exact absurd ((exchange_cmp_eq_iff _ _).mp he) hvab
    | lt => rfl
    | gt => rfl
  have hask : ∀ (qa qb : F) (va vb : Exchange), va ≠ vb →
      Ask.cmp (Ask.new p qa va) (Ask.new p qb vb) =
        (match (F.cmp qa qb).swap with
         | Ordering.eq => Ordering.lt
         | o => o) := by
    intro qa qb va vb hvab
    unfold Ask.cmp Ask.new
    rw [fcmp_self]
    cases he : (Exchange.cmp va vb).swap with
    | eq =>
      exact absurd ((exchange_cmp_eq_iff _ _).mp ((ordering_swap_eq_eq _).mp he)) hvab
    | lt => rfl
    | gt => rfl
  refine ⟨?_, ?_, ?_, ?_⟩
  · intro hq
    rw [hbid q1 q2 v1 v2 hv]
    cases hc : F.cmp q1 q2 with
    | eq => exact absurd ((fcmp_eq_iff _ _).mp hc) hq
    | lt => rfl
    | gt => rfl
  · intro hq
    subst hq
    constructor
    · rw [hbid q1 q1 v1 v2 hv, fcmp_self]
    · rw [hbid q1 q1 v2 v1 hv21, fcmp_self]
  · intro hq
    rw [hask q1 q2 v1 v2 hv]
    cases hc : (F.cmp q1 q2).swap with
    | eq =>
      exact absurd ((fcmp_eq_iff _ _).mp ((ordering_swap_eq_eq _).mp hc)) hq
    | lt => rfl
    | gt => rfl
  · intro hq
    subst hq
    constructor
    · rw [hask q1 q1 v1 v2 hv, fcmp_self]; rfl
    · rw [hask q1 q1 v2 v1 hv21, fcmp_self]; rfl

/-- Witness for C4: two bids with price 1.2, quantity 1000.56 and different
venues compare strictly less in the given order, and so do the corresponding
asks (the concrete pairs of the source's own ordering tests). -/
theorem price_level_order_tiebreak_witness :
    Bid.cmp (Bid.new (F.val 1.2) (F.val 1000.56) Exchange.bitstamp)
        (Bid.new (F.val 1.2) (F.val 1000.56) Exchange.binance) = Ordering.lt ∧
    Ask.cmp (Ask.new (F.val 1.2) (F.val 1000.56) Exchange.bitstamp)
        (Ask.new (F.val 1.2) (F.val 1000.56) Exchange.binance) = Ordering.lt :=
  ⟨((price_level_order_tiebreak (F.val 1.2) (F.val 1000.56) (F.val 1000.56)
      Exchange.bitstamp Exchange.binance (by decide)).2.1 rfl).1,
   ((price_level_order_tiebreak (F.val 1.2) (F.val 1000.56) (F.val 1000.56)
      Exchange.bitstamp Exchange.binance (by decide)).2.2.2 rfl).1⟩

/-- Claim C5 evaluated on the code: on an empty side container the best-1
query returns a one-element vector `[None]` — the result is padded to the
requested length, not cut short to the container's size. -/
theorem best_n_padding_counterexample :
    get_best_n_bids ([] : List Bid) 1 = [none] ∧
    get_best_n_asks ([] : List Ask) 1 = [none] ∧
    ([] : List Bid).length = 0 ∧ ([] : List Ask).length = 0 := by
  refine ⟨by decide, by decide, rfl, rfl⟩

/-- Claim C5 (amended): `get_best_n_bids` / `get_best_n_asks` always return a
vector of exactly `n` elements — the best levels, walked best-first from the
best end of the container and wrapped in `Some`, followed by `None` padding up
to `n`. -/
theorem best_n_exact_shape (b : List Bid) (a : List Ask) (n : Nat) :
    get_best_n_bids b n =
      (b.reverse.take n).map some ++ List.replicate (n - b.length) none ∧
    (get_best_n_bids b n).length = n ∧
    get_best_n_asks a n =
      (a.take n).map some ++ List.replicate (n - a.length) none ∧
    (get_best_n_asks a n).length = n := by
  have hb : get_best_n_bids b n =
      (b.reverse.take n).map some ++ List.replicate (n - b.length) none := by
    simp only [get_best_n_bids]
    rw [padGo_eq]
    have hlen : ((b.reverse.take n).map some).length = min n b.length := by
      simp
    rw [hlen]
    have hc : n - min n b.length = n - b.length := by omega
    rw [hc]
  have ha : get_best_n_asks a n =
      (a.take n).map some ++ List.replicate (n - a.length) none := by
    simp only [get_best_n_asks]
    rw [padGo_eq]
    have hlen : ((a.take n).map some).length = min n a.length := by
      simp
    rw [hlen]
    have hc : n - min n a.length = n - a.length := by omega
    rw [hc]
  refine ⟨hb, ?_, ha, ?_⟩
  · rw [hb]
    simp
    omega
  · rw [ha]
    simp
    omega

/-- Claim C8 evaluated on the code: with `max_depth = 0` an update of a
nonzero-quantity level on an empty container reaches the worst-end
`iter().next().unwrap()` on an empty iterator (modelled by `none`), and the
`Bid::new` / `Ask::new` constructors accept a NaN price unchanged — they
perform no rejection. -/
theorem update_unwrap_panic_counterexample :
    update_bids [] (Bid.new (F.val 1) (F.val 1) Exchange.binance) 0 = none ∧
    update_asks [] (Ask.new (F.val 1) (F.val 1) Exchange.binance) 0 = none ∧
    Bid.new F.nan (F.val 1) Exchange.binance =
      { price := F.nan, quantity := F.val 1, exchange := Exchange.binance } ∧
    Ask.new F.nan (F.val 1) Exchange.binance =
      { price := F.nan, quantity := F.val 1, exchange := Exchange.binance } := by
  refine ⟨by decide, by decide, rfl, rfl⟩

/-- Claim C8 (amended): side-container updates return normally for every
container state and input level whenever `max_depth ≥ 1` (with `max_depth = 0`
the worst-end unwrap can panic), and the `Bid::new` / `Ask::new` constructors
wrap any inputs — including NaN — without validation. -/
theorem update_infallible_pos_depth (S : List Bid) (T : List Ask) (L : Bid) (A : Ask)
    (d : Nat) (hd : 1 ≤ d) :
    (update_bids S L d).isSome ∧ (update_asks T A d).isSome ∧
    (∀ p q v, Bid.new p q v = { price := p, quantity := q, exchange := v }) ∧
    (∀ p q v, Ask.new p q v = { price := p, quantity := q, exchange := v }) := by
  refine ⟨?_, ?_, fun p q v => rfl, fun p q v => rfl⟩
  · by_cases h1 : L.quantity = F.val 0
    · simp [update_bids, h1]
    · by_cases h2 : S.length < d
      · by_cases h3 : setContains Bid.cmp L S <;> simp [update_bids, h1, h2, h3]
      · cases S with
        | nil => exfalso; simp at h2; omega
        | cons x xs =>
          by_cases h4 : Bid.cmp L x = Ordering.gt <;>
            simp [update_bids, h1, h2, h4] <;> split_ifs <;> rfl
  · by_cases h1 : A.quantity = F.val 0
    · simp [update_asks, h1]
    · by_cases h2 : T.length < d
      · by_cases h3 : setContains Ask.cmp A T <;> simp [update_asks, h1, h2, h3]
      · rcases T.eq_nil_or_concat with rfl | ⟨ys, y, rfl⟩
        · exfalso; simp at h2; omega
        · by_cases h4 : Ask.cmp A y = Ordering.lt <;>
            simp [update_asks, h1, h2, h4, List.getLast?_concat] <;>
              split_ifs <;> rfl

/-- Witness for C8 (amended): at `max_depth = 1` both updates on empty
containers return normally. -/
theorem update_infallible_pos_depth_witness :
    (update_bids [] (Bid.new (F.val 1) (F.val 1) Exchange.binance) 1).isSome ∧
    (update_asks [] (Ask.new (F.val 1) (F.val 1) Exchange.binance) 1).isSome :=
  ⟨(update_infallible_pos_depth [] [] (Bid.new (F.val 1) (F.val 1) Exchange.binance)
      (Ask.new (F.val 1) (F.val 1) Exchange.binance) 1 (by decide)).1,
   (update_infallible_pos_depth [] [] (Bid.new (F.val 1) (F.val 1) Exchange.binance)
      (Ask.new (F.val 1) (F.val 1) Exchange.binance) 1 (by decide)).2.1⟩

/-- Claim C10: an update whose quantity is 0 and whose `(price, venue)` key is
absent from the container leaves the container exactly unchanged, for any
`max_depth` — deleting an absent key is a silent no-op on both sides. -/
theorem zero_quantity_absent_key_noop (S : List Bid) (T : List Ask) (b : Bid) (a : Ask)
    (d : Nat) (hbq : b.quantity = F.val 0) (haq : a.quantity = F.val 0)
    (hbk : ∀ e ∈ S, ¬(e.price = b.price ∧ e.exchange = b.exchange))
    (hak : ∀ e ∈ T, ¬(e.price = a.price ∧ e.exchange = a.exchange)) :
    update_bids S b d = some S ∧ update_asks T a d = some T := by
  constructor
  · have h : ∀ e ∈ S, Bid.cmp b e ≠ Ordering.eq := by
      intro e he hc
      obtain ⟨h1, h2⟩ := (bid_cmp_eq_iff b e).mp hc
      exact hbk e he ⟨h1.symm, h2.symm⟩
    unfold update_bids
    rw [if_pos hbq, setRemove_eq_self Bid.cmp b S h]
  · have h : ∀ e ∈ T, Ask.cmp a e ≠ Ordering.eq := by
      intro e he hc
      obtain ⟨h1, h2⟩ := (ask_cmp_eq_iff a e).mp hc
      exact hak e he ⟨h1.symm, h2.symm⟩
    unfold update_asks
    rw [if_pos haq, setRemove_eq_self Ask.cmp a T h]

/-- Witness for C10: removing the absent key (50, Binance) from a container
holding only (100, 5, Binance) changes nothing, on either side. -/
theorem zero_quantity_absent_key_noop_witness :
    update_bids [Bid.new (F.val 100) (F.val 5) Exchange.binance]
        (Bid.new (F.val 50) (F.val 0) Exchange.binance) 10 =
      some [Bid.new (F.val 100) (F.val 5) Exchange.binance] ∧
    update_asks [Ask.new (F.val 100) (F.val 5) Exchange.binance]
        (Ask.new (F.val 50) (F.val 0) Exchange.binance) 10 =
      some [Ask.new (F.val 100) (F.val 5) Exchange.binance] :=
  zero_quantity_absent_key_noop
    [Bid.new (F.val 100) (F.val 5) Exchange.binance]
    [Ask.new (F.val 100) (F.val 5) Exchange.binance]
    (Bid.new (F.val 50) (F.val 0) Exchange.binance)
    (Ask.new (F.val 50) (F.val 0) Exchange.binance)
    10 rfl rfl (by decide) (by decide)

theorem filter_eq_self_of_true {α : Type} (p : α → Bool) :
    ∀ S : List α, (∀ e ∈ S, p e = true) → S.filter p = S := by
  intro S
  induction S with
  | nil => intro _; rfl
  | cons x xs ih =>
    intro h
    rw [List.filter_cons, h x (List.mem_cons_self _ _)]
    simp only [if_true]
    rw [ih fun e he => h e (List.mem_cons_of_mem _ he)]

/-- Claim C6 evaluated on the code: with the container full at `max_depth = 1`
holding (100, 5, Binance), the updates (50, 1, Binance) then (50, 2, Binance)
— same `(price, venue)` key, both quantities nonzero — are each dropped at the
worst-end comparison, so afterwards no entry with that key is in the container
at all, rather than a single entry with the second level's quantity. -/
theorem replacement_depth_counterexample :
    ((update_bids [Bid.new (F.val 100) (F.val 5) Exchange.binance]
        (Bid.new (F.val 50) (F.val 1) Exchange.binance) 1).bind
      fun s => update_bids s (Bid.new (F.val 50) (F.val 2) Exchange.binance) 1) =
      some [Bid.new (F.val 100) (F.val 5) Exchange.binance] ∧
    ([Bid.new (F.val 100) (F.val 5) Exchange.binance]).filter
      (fun e => decide (e.price = F.val 50 ∧ e.exchange = Exchange.binance)) = [] := by
  refine ⟨by decide, by decide⟩

/-- Claim C6 (amended): when the container has room for both steps
(`|S| + 1 < d`) and none of its entries carries the levels' shared price,
applying `update(L1, d)` then `update(L2, d)` for two nonzero-quantity levels
with the same `(price, venue)` key leaves the container with `L2` inserted:
exactly one entry carries that key — `L2` itself — and the remaining entries
are exactly the prior state. -/
theorem replacement_leaves_level_v2 (S : List Bid) (d : Nat) (L1 L2 : Bid)
    (hprice : L1.price = L2.price) (hvenue : L1.exchange = L2.exchange)
    (h1 : L1.quantity ≠ F.val 0) (h2 : L2.quantity ≠ F.val 0)
    (hfresh : ∀ e ∈ S, e.price ≠ L1.price)
    (hdepth : S.length + 1 < d) :
    ((update_bids S L1 d).bind fun s => update_bids s L2 d) =
      some (setInsert Bid.cmp L2 S) ∧
    (setInsert Bid.cmp L2 S).filter
      (fun e => decide (e.price = L2.price ∧ e.exchange = L2.exchange)) = [L2] ∧
    (setInsert Bid.cmp L2 S).filter
      (fun e => !(decide (e.price = L2.price ∧ e.exchange = L2.exchange))) = S := by
  have hkk : Bid.cmp L2 L1 = Ordering.eq :=
    (bid_cmp_eq_iff L2 L1).mpr ⟨hprice.symm, hvenue.symm⟩
  have hS1 : ∀ e ∈ S, Bid.cmp L1 e ≠ Ordering.eq ∧ Bid.cmp L2 e = Bid.cmp L1 e := by
    intro e he
    have hpe : L1.price ≠ e.price := fun h => hfresh e he h.symm
    have hpe2 : L2.price ≠ e.price := fun h => hfresh e he (hprice.trans h).symm
    constructor
    · rw [bid_cmp_of_price_ne L1 e hpe]
      intro hc
      exact hpe ((fcmp_eq_iff _ _).mp hc)
    · rw [bid_cmp_of_price_ne L1 e hpe, bid_cmp_of_price_ne L2 e hpe2, hprice]
  have hne1 : ∀ e ∈ S, Bid.cmp L1 e ≠ Ordering.eq := fun e he => (hS1 e he).1
  have hne2 : ∀ e ∈ S, Bid.cmp L2 e ≠ Ordering.eq := by
    intro e he
    rw [(hS1 e he).2]
    exact (hS1 e he).1
  have step1 : update_bids S L1 d = some (setInsert Bid.cmp L1 S) := by
    unfold update_bids
    rw [if_neg h1, if_pos (by omega : S.length < d)]
    rw [setContains_eq_false Bid.cmp L1 S hne1]
    simp
  have hlen2 : (setInsert Bid.cmp L1 S).length < d := by
    rw [setInsert_length Bid.cmp L1 S hne1]
    omega
  have step2 : update_bids (setInsert Bid.cmp L1 S) L2 d =
      some (setInsert Bid.cmp L2 S) := by
    unfold update_bids
    rw [if_neg h2, if_pos hlen2]
    rw [setContains_insert Bid.cmp L1 L2 hkk S hS1]
    rw [setRemove_insert Bid.cmp L1 L2 hkk S hS1]
    simp
  have hfilters :
      (setInsert Bid.cmp L2 S).filter
        (fun e => decide (e.price = L2.price ∧ e.exchange = L2.exchange)) = [L2] ∧
      (setInsert Bid.cmp L2 S).filter
        (fun e => !(decide (e.price = L2.price ∧ e.exchange = L2.exchange))) = S := by
    have hfalse : ∀ e ∈ S,
        decide (e.price = L2.price ∧ e.exchange = L2.exchange) = false := by
      intro e he
      have : e.price ≠ L2.price := fun h => hfresh e he (h.trans hprice.symm)
      simp [this]
    constructor
    · exact setInsert_filter_key Bid.cmp L2 _ (by simp) S hne2 hfalse
    · rw [setInsert_filter_not_key Bid.cmp L2 _ (by simp) S hne2]
      exact filter_eq_self_of_true _ S (by
        intro e he
        rw [hfalse e he]
        rfl)
  refine ⟨?_, hfilters.1, hfilters.2⟩
  rw [step1]
  exact step2

/-- Witness for C6 (amended): in a container holding only (200, 3, Binance)
with depth 3, updating (100, 1, Binance) then (100, 2, Binance) leaves exactly
the entry (100, 2, Binance) at that key, alongside the prior entry. -/
theorem replacement_leaves_level_v2_witness :
    ((update_bids [Bid.new (F.val 200) (F.val 3) Exchange.binance]
        (Bid.new (F.val 100) (F.val 1) Exchange.binance) 3).bind
      fun s => update_bids s (Bid.new (F.val 100) (F.val 2) Exchange.binance) 3) =
      some (setInsert Bid.cmp (Bid.new (F.val 100) (F.val 2) Exchange.binance)
        [Bid.new (F.val 200) (F.val 3) Exchange.binance]) ∧
    (setInsert Bid.cmp (Bid.new (F.val 100) (F.val 2) Exchange.binance)
        [Bid.new (F.val 200) (F.val 3) Exchange.binance]).filter
      (fun e => decide (e.price = (Bid.new (F.val 100) (F.val 2) Exchange.binance).price ∧
        e.exchange = (Bid.new (F.val 100) (F.val 2) Exchange.binance).exchange)) =
      [Bid.new (F.val 100) (F.val 2) Exchange.binance] :=
  ⟨(replacement_leaves_level_v2 [Bid.new (F.val 200) (F.val 3) Exchange.binance] 3
      (Bid.new (F.val 100) (F.val 1) Exchange.binance)
      (Bid.new (F.val 100) (F.val 2) Exchange.binance)
      rfl rfl (by decide) (by decide) (by decide) (by decide)).1,
   (replacement_leaves_level_v2 [Bid.new (F.val 200) (F.val 3) Exchange.binance] 3
      (Bid.new (F.val 100) (F.val 1) Exchange.binance)
      (Bid.new (F.val 100) (F.val 2) Exchange.binance)
      rfl rfl (by decide) (by decide) (by decide) (by decide)).2.1⟩

/-- Claim C7 evaluated on the code: starting from a container already holding
(100, 5, Binance), updating (100, 7, Binance) replaces the entry, and the
follow-up zero-quantity update removes it entirely — the result is the empty
container, not the prior state. -/
theorem round_trip_counterexample :
    ((update_bids [Bid.new (F.val 100) (F.val 5) Exchange.binance]
        (Bid.new (F.val 100) (F.val 7) Exchange.binance) 10).bind
      fun s => update_bids s (Bid.new (F.val 100) (F.val 0) Exchange.binance) 10) =
      some [] ∧
    ([] : List Bid) ≠ [Bid.new (F.val 100) (F.val 5) Exchange.binance] := by
  refine ⟨by decide, by decide⟩

/-- Claim C7 (amended): when the container has room (`|S| < d`) and none of
its entries carries the level's price, applying `update(L, d)` and then the
same level with quantity 0 restores the prior state exactly, on either
side. -/
theorem round_trip_restores_state (S : List Bid) (T : List Ask) (L : Bid) (A : Ask)
    (d : Nat)
    (hLq : L.quantity ≠ F.val 0) (hAq : A.quantity ≠ F.val 0)
    (hSf : ∀ e ∈ S, e.price ≠ L.price) (hTf : ∀ e ∈ T, e.price ≠ A.price)
    (hSd : S.length < d) (hTd : T.length < d) :
    ((update_bids S L d).bind fun s =>
        update_bids s { L with quantity := F.val 0 } d) = some S ∧
    ((update_asks T A d).bind fun s =>
        update_asks s { A with quantity := F.val 0 } d) = some T := by
  constructor
  · have hkk : Bid.cmp { L with quantity := F.val 0 } L = Ordering.eq :=
      (bid_cmp_eq_iff _ _).mpr ⟨rfl, rfl⟩
    have hS1 : ∀ e ∈ S, Bid.cmp L e ≠ Ordering.eq ∧
        Bid.cmp { L with quantity := F.val 0 } e = Bid.cmp L e := by
      intro e he
      have hpe : L.price ≠ e.price := fun h => hSf e he h.symm
      constructor
      · rw [bid_cmp_of_price_ne L e hpe]
        intro hc
        exact hpe ((fcmp_eq_iff _ _).mp hc)
      · rw [bid_cmp_of_price_ne L e hpe,
          bid_cmp_of_price_ne { L with quantity := F.val 0 } e hpe]
    have hne : ∀ e ∈ S, Bid.cmp L e ≠ Ordering.eq := fun e he => (hS1 e he).1
    have step1 : update_bids S L d = some (setInsert Bid.cmp L S) := by
      unfold update_bids
      rw [if_neg hLq, if_pos hSd]
      rw [setContains_eq_false Bid.cmp L S hne]
      simp
    rw [step1]
    show update_bids (setInsert Bid.cmp L S) { L with quantity := F.val 0 } d = some S
    unfold update_bids
    rw [if_pos rfl]
    rw [setRemove_insert Bid.cmp L { L with quantity := F.val 0 } hkk S hS1]
  · have hkk : Ask.cmp { A with quantity := F.val 0 } A = Ordering.eq :=
      (ask_cmp_eq_iff _ _).mpr ⟨rfl, rfl⟩
    have hT1 : ∀ e ∈ T, Ask.cmp A e ≠ Ordering.eq ∧
        Ask.cmp { A with quantity := F.val 0 } e = Ask.cmp A e := by
      intro e he
      have hpe : A.price ≠ e.price := fun h => hTf e he h.symm
      constructor
      · rw [ask_cmp_of_price_ne A e hpe]
        intro hc
        exact hpe ((fcmp_eq_iff _ _).mp hc)
      · rw [ask_cmp_of_price_ne A e hpe,
          ask_cmp_of_price_ne { A with quantity := F.val 0 } e hpe]
    have hne : ∀ e ∈ T, Ask.cmp A e ≠ Ordering.eq := fun e he => (hT1 e he).1
    have step1 : update_asks T A d = some (setInsert Ask.cmp A T) := by
      unfold update_asks
      rw [if_neg hAq, if_pos hTd]
      rw [setContains_eq_false Ask.cmp A T hne]
      simp
    rw [step1]
    show update_asks (setInsert Ask.cmp A T) { A with quantity := F.val 0 } d = some T
    unfold update_asks
    rw [if_pos rfl]
    rw [setRemove_insert Ask.cmp A { A with quantity := F.val 0 } hkk T hT1]

/-- Witness for C7 (amended): inserting (100, 7, Binance) into a container
holding only (200, 3) and then deleting it restores the container, on both
sides. -/
theorem round_trip_restores_state_witness :
    ((update_bids [Bid.new (F.val 200) (F.val 3) Exchange.binance]
        (Bid.new (F.val 100) (F.val 7) Exchange.binance) 10).bind
      fun s => update_bids s
        { Bid.new (F.val 100) (F.val 7) Exchange.binance with quantity := F.val 0 } 10) =
      some [Bid.new (F.val 200) (F.val 3) Exchange.binance] ∧
    ((update_asks [Ask.new (F.val 200) (F.val 3) Exchange.binance]
        (Ask.new (F.val 100) (F.val 7) Exchange.binance) 10).bind
      fun s => update_asks s
        { Ask.new (F.val 100) (F.val 7) Exchange.binance with quantity := F.val 0 } 10) =
      some [Ask.new (F.val 200) (F.val 3) Exchange.binance] :=
  round_trip_restores_state
    [Bid.new (F.val 200) (F.val 3) Exchange.binance]
    [Ask.new (F.val 200) (F.val 3) Exchange.binance]
    (Bid.new (F.val 100) (F.val 7) Exchange.binance)
    (Ask.new (F.val 100) (F.val 7) Exchange.binance)
    10 (by decide) (by decide) (by decide) (by decide) (by decide) (by decide)

/-- Claim C9 evaluated on the code: with the summary sink failing (no
subscribers), the consumer loop terminates with `SummarySendError` on the
first update without ever applying the second; the same two updates with a
working sink leave both bid levels applied. -/
theorem aggregator_stops_on_send_error :
    loop_result_tag (consumer_loop 10 1 initialAggState
      [(PriceLevelUpdate.new [Bid.new (F.val 100) (F.val 1) Exchange.binance] [], false),
       (PriceLevelUpdate.new [Bid.new (F.val 101) (F.val 1) Exchange.binance] [], false)]) = 1 ∧
    loop_ok_bid_count (consumer_loop 10 1 initialAggState
      [(PriceLevelUpdate.new [Bid.new (F.val 100) (F.val 1) Exchange.binance] [], true),
       (PriceLevelUpdate.new [Bid.new (F.val 101) (F.val 1) Exchange.binance] [], true)]) =
      some 2 := by
  refine ⟨by decide, by decide⟩

/-- Claim C9 (amended): whenever the loop body completes on an update but the
broadcast send fails because every subscriber has dropped, the consumer task
terminates, returning `SummarySendError`; the remaining updates are never
processed. -/
theorem aggregator_send_error_terminates (d n : Nat) (s : AggState)
    (u : PriceLevelUpdate) (rest : List (PriceLevelUpdate × Bool))
    (h : (consumer_step d n s u).isSome = true) :
    consumer_loop d n s ((u, false) :: rest) =
      some (Except.error OrderBookErr.summarySendError) := by
  rcases hc : consumer_step d n s u with _ | ⟨s2, sm⟩
  · rw [hc] at h
    simp at h
  · simp [consumer_loop, hc]

/-- Witness for C9 (amended): the consumer loop on one concrete update with a
failing sink returns the send error. -/
theorem aggregator_send_error_terminates_witness :
    consumer_loop 10 1 initialAggState
      [(PriceLevelUpdate.new [Bid.new (F.val 100) (F.val 1) Exchange.binance] [], false)] =
      some (Except.error OrderBookErr.summarySendError) :=
  aggregator_send_error_terminates 10 1 initialAggState
    (PriceLevelUpdate.new [Bid.new (F.val 100) (F.val 1) Exchange.binance] []) []
    (by decide)

end BidAsk
